import Mathlib

/-!
Shallow embedding of the core of `src/subtitle-ebook/generate.py`:
the episode matcher (`match_episode`), the subtitle-to-html normalizer
(`episode_html`), the directory-walk loop of `prepare`, and the
chapter/TOC assembly loop of `generate`.

Strings are modelled as `List Char`; Python exceptions that escape a
function are modelled with `Option`/`Except` (or an explicit `crash`
result).  External collaborators (the `re` module, `lxml` text
extraction, the cue parser, the TVDB scraper, file I/O and the epub
writer) are modelled at their observable interface, as documented on
each definition.
-/

namespace SubtitleEbook

/-! ### The artifact-stripping substitution of `episode_html` (line 62)

`re.sub(r'\d+ > ', '', str(line))` removes every non-overlapping
occurrence of one-or-more digits followed by `" > "` (space, `>`,
space), scanning left to right.  `\d+` cannot backtrack here because a
digit can never match the space that must follow, so an occurrence
starts at a position exactly when a maximal digit run there is
immediately followed by `" > "`. -/

/-- Drop the leading run of decimal digits of a character list. -/
def dropDigits : List Char → List Char
  | [] => []
  | c :: cs => if c.isDigit then dropDigits cs else c :: cs

/-- Try to match the regex `\d+ > ` at the head of the list; on success
return the remainder after the match. -/
def matchMarker : List Char → Option (List Char)
  | [] => none
  | c :: cs =>
    if c.isDigit then
      match dropDigits cs with
      | ' ' :: '>' :: ' ' :: rest => some rest
      | _ => none
    else none

/-- Fuelled worker for `stripMarker`; each successful match consumes at
least four characters, so `fuel = length` never runs out. -/
def stripGo : Nat → List Char → List Char
  | _, [] => []
  | 0, l => l
  | fuel + 1, c :: cs =>
    match matchMarker (c :: cs) with
    | some rest => stripGo fuel rest
    | none => c :: stripGo fuel cs

/-- Model of `re.sub(r'\d+ > ', '', s)`: delete every occurrence of the
marker anywhere in the line. -/
def stripMarker (l : List Char) : List Char := stripGo l.length l

/-! ### The cue-merging and rendering loops of `episode_html` (lines 59-78) -/

/-- One iteration of the first loop of `episode_html` (lines 64-68) on an
already-stripped `line`: if the accumulated buffer is non-empty
(`lst_line and ...` short-circuits, so an empty buffer skips the
indexing) and the line's first character is lowercase, replace the last
buffered line by `last ++ " " ++ line`; otherwise append the line.
Indexing `line[0]` on an empty line raises `IndexError`, modelled as
`none`. -/
def mergeLine (acc : List (List Char)) (line : List Char) : Option (List (List Char)) :=
  match acc.getLast? with
  | none => some [line]
  | some prev =>
    match line with
    | [] => none
    | c :: rest =>
      if c.isLower then some (acc.dropLast ++ [prev ++ ' ' :: c :: rest])
      else some (acc ++ [c :: rest])

/-- The first loop of `episode_html`: strip the marker from each raw cue
line (the cue parser's `str(line)` output) and merge continuations. -/
def mergeLoop : List (List Char) → List (List Char) → Option (List (List Char))
  | [], acc => some acc
  | raw :: rest, acc =>
    match mergeLine acc (stripMarker raw) with
    | none => none
    | some acc2 => mergeLoop rest acc2

/-- Model of `lxml.html.fromstring(line).text_content()` on the
markup-free text this pipeline feeds it: `lxml` raises
`ParserError: Document is empty` on an empty (or whitespace-only)
document, and otherwise the text of a markup-free line is the line
itself. -/
def textContent (line : List Char) : Option (List Char) :=
  if (line.dropWhile Char.isWhitespace).isEmpty then none else some line

/-- One iteration of the second loop of `episode_html` (lines 72-76):
extract the text content, wrap a `[...]`-delimited line in `<i>` tags
(dropping the brackets), and wrap the result in a paragraph. -/
def renderLine (line : List Char) : Option (List Char) :=
  match textContent line with
  | none => none
  | some t =>
    match t with
    | [] => none
    | c :: _ =>
      if c = '[' ∧ t.getLast? = some ']' then
        some ("<p><i>".toList ++ (t.drop 1).dropLast ++ "</i></p>".toList)
      else
        some ("<p>".toList ++ t ++ "</p>".toList)

/-- The second loop of `episode_html`: accumulate the rendered
paragraphs, in order, into one html string. -/
def renderLoop : List (List Char) → List Char → Option (List Char)
  | [], html => some html
  | line :: rest, html =>
    match renderLine line with
    | none => none
    | some p => renderLoop rest (html ++ p)

/-- Model of `episode_html` (lines 49-78).  Its input is the sequence of
`str(line)` values the external cue parser yields for the subtitle
file; `none` models an uncaught exception escaping the function. -/
def episodeHtml (rawLines : List (List Char)) : Option (List Char) :=
  match mergeLoop rawLines [] with
  | none => none
  | some merged => renderLoop merged []

/-! ### The episode matcher `match_episode` (lines 81-109) -/

/-- Python `str.lower`, on the ASCII filenames this program handles. -/
def lowerStr (l : List Char) : List Char := l.map Char.toLower

/-- The part of a path after the last `/` (`pathlib.PurePath.name`). -/
def lastComponent (l : List Char) : List Char :=
  (l.reverse.takeWhile (fun c => c != '/')).reverse

/-- `pathlib` suffix of a file name: the part from the last dot on,
empty when there is no dot, when the dot is the first character of the
name, or when the dot is its last character. -/
def suffixOf (name : List Char) : List Char :=
  let rev := name.reverse
  let ext := rev.takeWhile (fun c => c != '.')
  if ext.length = rev.length then []
  else if ext.length = 0 then []
  else if ext.length = rev.length - 1 then []
  else '.' :: ext.reverse

/-- Model of `Path(filename).suffix`. -/
def pathSuffix (l : List Char) : List Char := suffixOf (lastComponent l)

/-- Decimal digits of `n`, zero-padded to width 2: `'{0:02d}'.format n`. -/
def pad2 (n : Nat) : List Char :=
  if n < 10 then '0' :: (toString n).toList else (toString n).toList

/-- `'S{0:02d}E{1:02d}'.format(season, episode)`. -/
def formatSE (season episode : Nat) : List Char :=
  'S' :: (pad2 season ++ ('E' :: pad2 episode))

/-- A compiled filename pattern, abstracting the `re` module: applying
it to the (lower-cased) filename returns `some (season, episode)` when
`re.search` succeeds and both named groups parse with `int`, and `none`
when any of those steps raises (`m` is `None`, a group is missing, or a
capture is non-numeric). -/
abbrev Pattern := List Char → Option (Nat × Nat)

/-- Outcome of `match_episode`: a formatted id, Python `None`, or an
uncaught exception escaping to the caller. -/
inductive MatchResult
  | ok (se : List Char)
  | noMatch
  | crash
deriving DecidableEq

/-- Model of `match_episode` (lines 81-109).  The function lower-cases
the filename, takes its suffix, and `pop(-1)`s the LAST pattern of the
list.  An empty pattern list makes `pop` raise `IndexError` (before the
`try`), modelled as `crash`.  If the suffix is allowed it attempts the
popped pattern; on any failure the `except` branch, when patterns
remain, calls `match_episode(filename, lst_pattern)` - a call that is
missing the third required argument and therefore raises `TypeError`
inside the `except` block, which propagates to the caller (`crash`);
even aside from the arity, the recursive call's result is discarded.
With no pattern remaining the function falls through and returns the
unchanged `se = None` (`noMatch`). -/
def match_episode (filename : List Char) (lst_pattern : List Pattern)
    (lst_suffix : List (List Char)) : MatchResult :=
  let fname := lowerStr filename
  let suffix := pathSuffix fname
  match lst_pattern.getLast? with
  | none => .crash
  | some pattern =>
    if suffix ∈ lst_suffix then
      match pattern fname with
      | some (season, episode) => .ok (formatSE season episode)
      | none => if lst_pattern.length ≤ 1 then .noMatch else .crash
    else .noMatch

/-! ### The directory-walk loop of `prepare` (lines 134-143)

Around this loop, `prepare` loads the config (falling back to the
bundled default), fetches `data_tv` from the TVDB scraper, and - only
after the walk completes without an exception - serializes the merged
data to the info file with `json.dump`.  Config load, network fetch and
the final file write are external I/O; the walk itself is modelled
below over the walk's `(root, filename)` pairs, with an `Except` whose
`error` case means an uncaught exception aborted `prepare` before the
info file was written. -/

/-- One provider entry of `data_tv` as stored in the info file's `tv`
mapping: `title`/`description` from the scraper, plus the local
`subtitle`/`root` keys added by the walk when a file matches. -/
structure SeriesEntry where
  title : List Char
  description : List Char
  subtitle : Option (List Char)
  root : Option (List Char)
deriving DecidableEq

/-- How the walk loop of `prepare` aborts. -/
inductive PrepError
  | matcherRaised (filename : List Char)
  | noProviderEntry (se : List Char)
deriving DecidableEq

/-- `dict.get` on the `data_tv` mapping, modelled as an association
list in insertion order. -/
def lookupSE {β : Type} : List (List Char × β) → List Char → Option β
  | [], _ => none
  | (k, v) :: rest, key => if k = key then some v else lookupSE rest key

/-- `data_tv.update({se: info})` for a key that is already present:
replace its value, keeping the entry's position. -/
def setEntry {β : Type} (key : List Char) (v : β)
    (l : List (List Char × β)) : List (List Char × β) :=
  l.map fun p => if p.1 = key then (key, v) else p

/-- Model of the walk loop of `prepare` (lines 134-143).  For every
walked file: run the matcher (a `crash` result is an uncaught exception
and aborts); on `se is not None`, look `se` up in `data_tv` - when the
provider mapping has no entry, `data_tv.get(se)` is `None` and
`info.update(...)` raises `AttributeError`, aborting the walk;
otherwise merge the `subtitle` and `root` keys into the entry. -/
def prepareWalk (lst_pattern : List Pattern) (lst_suffix : List (List Char)) :
    List (List Char × SeriesEntry) → List (List Char × List Char) →
    Except PrepError (List (List Char × SeriesEntry))
  | dataTv, [] => .ok dataTv
  | dataTv, (root, filename) :: rest =>
    match match_episode filename lst_pattern lst_suffix with
    | .crash => .error (.matcherRaised filename)
    | .noMatch => prepareWalk lst_pattern lst_suffix dataTv rest
    | .ok se =>
      match lookupSE dataTv se with
      | none => .error (.noProviderEntry se)
      | some info =>
        prepareWalk lst_pattern lst_suffix
          (setEntry se { info with subtitle := some filename, root := some root } dataTv) rest

/-- `true` exactly on the `error` case. -/
def isError {ε α : Type} : Except ε α → Bool
  | .error _ => true
  | .ok _ => false

/-! ### The chapter/TOC assembly loop of `generate` (lines 176-231) -/

/-- One entry of the info file's `tv` mapping as `generate` reads it:
`title`/`description`/`subtitle`/`root` as in the serialized dict, plus
`cueLines`, the sequence of `str(line)` values the external cue parser
yields for the file `root/subtitle` (the file system and cue parser are
external, so each entry is modelled together with its file's parsed
content). -/
structure EpisodeEntry where
  title : List Char
  description : List Char
  subtitle : Option (List Char)
  root : List Char
  cueLines : List (List Char)
deriving DecidableEq

/-- An `epub.EpubHtml` chapter as built by the loop: its episode key,
its heading `'{se} - {title}'`, and its `content` html. -/
structure Chapter where
  se : List Char
  heading : List Char
  content : List Char
deriving DecidableEq

/-- How the assembly loop of `generate` can abort (an uncaught
exception before `write_epub`, so no output book is produced):
`episode_html` raising, the explicit `raise Exception('Empty content',
se)`, or the TOC's season regex not matching the key (`m` is `None`). -/
inductive GenError
  | cueRaised (se : List Char)
  | emptyContent (se : List Char)
  | seasonUnparsed (se : List Char)
deriving DecidableEq

/-- The chapter intro block,
`'<h2>{title}</h2><p><i>{description}</i></p>'` (written with its first
character as an explicit cons so that non-emptiness is apparent). -/
def episodeIntro (heading description : List Char) : List Char :=
  '<' :: ("h2>".toList ++ heading ++ "</h2><p><i>".toList ++ description ++ "</i></p>".toList)

/-- Model of `re.search('S(?P<season>\d+)', se)` followed by
`int(m.group('season'))`: scan for the first `S` that is immediately
followed by at least one digit, and read that maximal digit run as a
number; `none` when the regex does not match (`m.group` then raises). -/
def parseSeason : List Char → Option Nat
  | [] => none
  | c :: rest =>
    if c = 'S' then
      match rest.takeWhile Char.isDigit with
      | [] => parseSeason rest
      | d :: ds => some ((d :: ds).foldl (fun a ch => a * 10 + (ch.toNat - '0'.toNat)) 0)
    else parseSeason rest

/-- The label the loop gives a TOC section,
`'Season {0}'.format(season)`; sections below carry the season number,
from which this label is derived at emission time. -/
def sectionTitle (season : Nat) : List Char :=
  "Season ".toList ++ (toString season).toList

/-- Model of the loop of `generate` (lines 180-228) over the `tv`
entries in their stored order.  State: the spine chapter list
(`lst_spine` minus the fixed leading `'nav'` marker, which is inserted
after the loop), the TOC scan state `s_prev_season` / `s_lst_episode`,
and the emitted sections.  Entries without a `subtitle` key are
skipped.  For an eligible entry the chapter content is the intro block
followed by the `episode_html` output; the `if not content` check is
performed on that concatenation, exactly as in the source.  The
season-change comparison emits the in-progress section only when it is
non-empty; the `for ... else` clause emits the final in-progress
section unconditionally after the scan. -/
def genLoop : List (List Char × EpisodeEntry) → List Chapter → Nat → List Chapter →
    List (Nat × List Chapter) → Except GenError (List Chapter × List (Nat × List Chapter))
  | [], chapters, prevSeason, curRun, toc => .ok (chapters, toc ++ [(prevSeason, curRun)])
  | (se, info) :: rest, chapters, prevSeason, curRun, toc =>
    match info.subtitle with
    | none => genLoop rest chapters prevSeason curRun toc
    | some _ =>
      match episodeHtml info.cueLines with
      | none => .error (.cueRaised se)
      | some body =>
        let heading := se ++ " - ".toList ++ info.title
        let content := episodeIntro heading info.description ++ body
        if content = [] then .error (.emptyContent se)
        else
          match parseSeason se with
          | none => .error (.seasonUnparsed se)
          | some season =>
            if season ≠ prevSeason then
              genLoop rest (chapters ++ [⟨se, heading, content⟩]) season [⟨se, heading, content⟩]
                (if curRun.isEmpty then toc else toc ++ [(prevSeason, curRun)])
            else
              genLoop rest (chapters ++ [⟨se, heading, content⟩]) prevSeason
                (curRun ++ [⟨se, heading, content⟩]) toc

/-- The assembly phase of `generate`: the loop from its initial state
(`s_prev_season = 0`, `s_lst_episode = []`).  On success it returns the
chapter list (the spine is `'nav'` followed by exactly these chapters)
and the TOC sections, each as its season number (labelled
`sectionTitle`) with its chapters. -/
def generateBook (entries : List (List Char × EpisodeEntry)) :
    Except GenError (List Chapter × List (Nat × List Chapter)) :=
  genLoop entries [] 0 [] []

/-! ### The TOC scan in isolation, and its contiguous-run specification -/

/-- The TOC part of the loop's state transition, isolated: fold over
the `(season, chapter)` pairs of the assembled chapters with the same
branching as lines 210-221, and the unconditional final emission of
lines 224-228. -/
def tocGo {α : Type} : List (Nat × α) → Nat → List α → List (Nat × List α) →
    List (Nat × List α)
  | [], prevSeason, curRun, acc => acc ++ [(prevSeason, curRun)]
  | (s, a) :: rest, prevSeason, curRun, acc =>
    if s ≠ prevSeason then
      tocGo rest s [a] (if curRun.isEmpty then acc else acc ++ [(prevSeason, curRun)])
    else
      tocGo rest prevSeason (curRun ++ [a]) acc

/-- Modelled from the spec's words: one section per contiguous run of
equal season numbers, in order ("one TocSection per contiguous run of a
season number").  Used to compare the code's TOC scan against the
specified decomposition. -/
def runsSpec {α : Type} : List (Nat × α) → List (Nat × List α)
  | [] => []
  | (s, a) :: rest =>
    match runsSpec rest with
    | [] => [(s, [a])]
    | (s2, r) :: rs => if s = s2 then (s, a :: r) :: rs else (s, [a]) :: (s2, r) :: rs

/-- Prepend one element of season `s` to a run decomposition, merging
with the first run when it has the same season. -/
def consRun {α : Type} (s : Nat) (run : List α) : List (Nat × List α) → List (Nat × List α)
  | [] => [(s, run)]
  | (s2, r) :: rs => if s = s2 then (s, run ++ r) :: rs else (s, run) :: (s2, r) :: rs

/-! ## Lemmas about the marker-stripping substitution -/

theorem dropDigits_sublen : ∀ l : List Char, (dropDigits l).length ≤ l.length := by
  intro l
  induction l with
  | nil => simp [dropDigits]
  | cons c cs ih =>
    simp only [dropDigits]
    split
    · exact Nat.le_succ_of_le ih
    · exact Nat.le_refl _

theorem matchMarker_shrink : ∀ {l rest : List Char}, matchMarker l = some rest →
    rest.length < l.length := by
  intro l rest h
  cases l with
  | nil => simp [matchMarker] at h
  | cons c cs =>
    simp only [matchMarker] at h
    split_ifs at h
    have hd := dropDigits_sublen cs
    split at h
    · rename_i r heq
      cases h
      rw [heq] at hd
      simp only [List.length_cons] at hd ⊢
      omega
    · simp at h

theorem stripGo_nil : ∀ f, stripGo f [] = [] := by
  intro f
  cases f <;> rfl

theorem stripGo_fuel : ∀ (f g : Nat) (l : List Char), l.length ≤ f → l.length ≤ g →
    stripGo f l = stripGo g l := by
  intro f
  induction f with
  | zero =>
    intro g l hf _
    have : l = [] := List.eq_nil_of_length_eq_zero (Nat.le_zero.mp hf)
    subst this
    rw [stripGo_nil, stripGo_nil]
  | succ f ih =>
    intro g l hf hg
    cases l with
    | nil => rw [stripGo_nil, stripGo_nil]
    | cons c cs =>
      cases g with
      | zero => simp at hg
      | succ g =>
        show stripGo (f + 1) (c :: cs) = stripGo (g + 1) (c :: cs)
        simp only [stripGo]
        cases hm : matchMarker (c :: cs) with
        | some rest =>
          have hlt := matchMarker_shrink hm
          simp only [List.length_cons] at hlt hf hg
          exact ih g rest (by omega) (by omega)
        | none =>
          simp only [List.length_cons] at hf hg
          rw [ih g cs (by omega) (by omega)]

theorem stripMarker_cons_some {c : Char} {cs rest : List Char}
    (h : matchMarker (c :: cs) = some rest) : stripMarker (c :: cs) = stripMarker rest := by
  have hlt := matchMarker_shrink h
  simp only [List.length_cons] at hlt
  unfold stripMarker
  show stripGo (cs.length + 1) (c :: cs) = _
  simp only [stripGo]
  rw [h]
  exact stripGo_fuel cs.length rest.length rest (by omega) (Nat.le_refl _)

theorem stripMarker_cons_none {c : Char} {cs : List Char}
    (h : matchMarker (c :: cs) = none) : stripMarker (c :: cs) = c :: stripMarker cs := by
  unfold stripMarker
  show stripGo (cs.length + 1) (c :: cs) = _
  simp only [stripGo]
  rw [h]

theorem matchMarker_nondigit {c : Char} {cs : List Char} (h : c.isDigit = false) :
    matchMarker (c :: cs) = none := by
  simp [matchMarker, h]

theorem dropDigits_digits : ∀ (d r : List Char), (∀ c ∈ d, c.isDigit = true) →
    dropDigits (d ++ ' ' :: r) = ' ' :: r := by
  intro d
  induction d with
  | nil =>
    intro r _
    simp [dropDigits]
  | cons c d' ih =>
    intro r h
    have hc : c.isDigit = true := h c (List.mem_cons_self _ _)
    simp only [List.cons_append, dropDigits, hc, if_true]
    exact ih r (fun x hx => h x (List.mem_cons_of_mem _ hx))

theorem matchMarker_marker : ∀ (d b : List Char), d ≠ [] → (∀ c ∈ d, c.isDigit = true) →
    matchMarker (d ++ ' ' :: '>' :: ' ' :: b) = some b := by
  intro d b hne hd
  cases d with
  | nil => exact absurd rfl hne
  | cons c d' =>
    have hc : c.isDigit = true := hd c (List.mem_cons_self _ _)
    show matchMarker (c :: (d' ++ ' ' :: '>' :: ' ' :: b)) = some b
    simp only [matchMarker]
    rw [if_pos hc, dropDigits_digits d' _ (fun x hx => hd x (List.mem_cons_of_mem _ hx))]
    rfl

/-- C5, amended: the substitution `re.sub(r'\d+ > ', '', line)` removes
EVERY occurrence of a `<number> > ` marker in the line's text, wherever
it occurs, not only a leading one: a digit-free prefix is kept verbatim
and stripping continues after the removed marker. -/
theorem claimC5_amended : ∀ (a d b : List Char),
    (∀ c ∈ a, c.isDigit = false) → d ≠ [] → (∀ c ∈ d, c.isDigit = true) →
    stripMarker (a ++ d ++ (' ' :: '>' :: ' ' :: []) ++ b) = a ++ stripMarker b := by
  intro a
  induction a with
  | nil =>
    intro d b _ hne hd
    simp only [List.nil_append]
    have hassoc : d ++ (' ' :: '>' :: ' ' :: []) ++ b = d ++ (' ' :: '>' :: ' ' :: b) := by
      simp
    rw [hassoc]
    cases d with
    | nil => exact absurd rfl hne
    | cons c d' =>
      show stripMarker (c :: (d' ++ ' ' :: '>' :: ' ' :: b)) = stripMarker b
      exact stripMarker_cons_some (matchMarker_marker (c :: d') b hne hd)
  | cons c a' ih =>
    intro d b ha hne hd
    have hc : c.isDigit = false := ha c (List.mem_cons_self _ _)
    show stripMarker (c :: (a' ++ d ++ (' ' :: '>' :: ' ' :: []) ++ b)) = (c :: a') ++ stripMarker b
    rw [stripMarker_cons_none (matchMarker_nondigit hc)]
    rw [ih d b (fun x hx => ha x (List.mem_cons_of_mem _ hx)) hne hd]
    rfl

/-- C5, counterexample to the claim as stated: the claim says a
`<number> > ` occurrence that is not at the start of the line is left
unchanged, but on the line `"a 1 > b"` (whose only marker occurrence is
not leading) the stripping step removes it, yielding `"a b"`. -/
theorem claimC5_counterexample :
    stripMarker ("a 1 > b".toList) = "a b".toList ∧ "a b".toList ≠ "a 1 > b".toList := by
  constructor
  · rfl
  · decide

/-- Witness for the amended C5 at a concrete non-leading occurrence. -/
theorem claimC5_witness :
    stripMarker ("a 1 > b".toList) = "a ".toList ++ stripMarker ("b".toList) :=
  claimC5_amended ("a ".toList) ("1".toList) ("b".toList) (by decide) (by decide) (by decide)

/-! ## The episode matcher: claims C1 and C2 -/

/-- A pattern that derives `(1, 1)` from the test filename. -/
def patFirst : Pattern := fun _ => some (1, 1)

/-- A pattern that derives `(2, 2)` from the test filename. -/
def patSecond : Pattern := fun _ => some (2, 2)

/-- A pattern that matches the test filename `x.srt`, deriving
`(3, 4)`. -/
def patOnlyX : Pattern := fun f => if f = "x.srt".toList then some (3, 4) else none

/-- A pattern that never matches. -/
def patNever : Pattern := fun _ => none

/-- C1 (code_bug evidence): with patterns `[P1, P2]` that BOTH match
`x.srt` (`P1` deriving S01E01, `P2` deriving S02E02) and an allowed
suffix, `match_episode` returns the id derived from the LAST pattern,
S02E02 - it `pop(-1)`s the end of the list - contradicting the claim
that the first pattern in the given order wins. -/
theorem claimC1_code_tries_last_pattern :
    match_episode ("x.srt".toList) [patFirst, patSecond] [".srt".toList]
      = .ok ("S02E02".toList) ∧
    patFirst ("x.srt".toList) = some (1, 1) ∧
    "S02E02".toList ≠ "S01E01".toList := by
  refine ⟨rfl, rfl, ?_⟩
  decide

/-- C2 (code_bug evidence): with patterns `[P1, P2]` where only `P1`
matches `x.srt` and `P2` fails, `match_episode` does not fall back to
`P1`: the `except` branch calls `match_episode(filename, lst_pattern)`
with a missing argument, raising `TypeError` out of the matcher
(`crash`) instead of returning the id derived from `P1`. -/
theorem claimC2_code_crashes_on_fallback :
    patOnlyX ("x.srt".toList) = some (3, 4) ∧
    patNever ("x.srt".toList) = none ∧
    match_episode ("x.srt".toList) [patOnlyX, patNever] [".srt".toList] = .crash := by
  exact ⟨rfl, rfl, rfl⟩

/-! ## The cue normalizer: claims C6, C9 and C3 -/

/-- C6: in the merge loop of `episode_html`, with a non-empty running
buffer, a line whose first character is lowercase is concatenated after
the previous accumulated line with a single space separator, replacing
that line in the buffer, while a line whose first character is not
lowercase is appended as a new paragraph; consequently the cue lines
`["Hello there.", "world, continued."]` render as the single paragraph
`"<p>Hello there. world, continued.</p>"` and `["Hello.", "World."]`
stay two paragraphs. -/
theorem claimC6_continuation_merge :
    (∀ (front : List (List Char)) (prev : List Char) (c : Char) (rest : List Char),
      c.isLower = true →
      mergeLine (front ++ [prev]) (c :: rest) = some (front ++ [prev ++ ' ' :: c :: rest])) ∧
    (∀ (front : List (List Char)) (prev : List Char) (c : Char) (rest : List Char),
      c.isLower = false →
      mergeLine (front ++ [prev]) (c :: rest) = some ((front ++ [prev]) ++ [c :: rest])) ∧
    episodeHtml ["Hello there.".toList, "world, continued.".toList]
      = some ("<p>Hello there. world, continued.</p>".toList) ∧
    episodeHtml ["Hello.".toList, "World.".toList]
      = some ("<p>Hello.</p><p>World.</p>".toList) := by
  refine ⟨?_, ?_, by decide, by decide⟩
  · intro front prev c rest h
    simp [mergeLine, List.getLast?_concat, List.dropLast_concat, h]
  · intro front prev c rest h
    simp [mergeLine, List.getLast?_concat, h]

/-- Witness for C6 at the claim's concrete continuation example. -/
theorem claimC6_witness :
    mergeLine ["Hello there.".toList] ('w' :: "orld, continued.".toList)
      = some ["Hello there.".toList ++ ' ' :: 'w' :: "orld, continued.".toList] :=
  claimC6_continuation_merge.1 [] ("Hello there.".toList) 'w' ("orld, continued.".toList) rfl

theorem mergeLine_ne_nil : ∀ {acc : List (List Char)} {line : List Char}
    {acc2 : List (List Char)}, mergeLine acc line = some acc2 → acc2 ≠ [] := by
  intro acc line acc2 h
  cases hl : acc.getLast? with
  | none =>
    simp only [mergeLine, hl, Option.some.injEq] at h
    subst h
    simp
  | some prev =>
    cases line with
    | nil => simp [mergeLine, hl] at h
    | cons c rest =>
      simp only [mergeLine, hl] at h
      split_ifs at h <;> (simp only [Option.some.injEq] at h; subst h; simp)

theorem mergeLoop_empty_line : ∀ (rest : List (List Char)) (acc : List (List Char)),
    acc ≠ [] → (∃ l ∈ rest, stripMarker l = []) → mergeLoop rest acc = none := by
  intro rest
  induction rest with
  | nil =>
    intro acc _ hex
    obtain ⟨l, hl, _⟩ := hex
    simp at hl
  | cons raw rest ih =>
    intro acc hacc hex
    simp only [mergeLoop]
    obtain ⟨l, hl, hstrip⟩ := hex
    rcases List.mem_cons.mp hl with heq | hmem
    · subst heq
      rw [hstrip]
      obtain ⟨x, xs, rfl⟩ : ∃ x xs, acc = x :: xs := by
        cases acc with
        | nil => exact absurd rfl hacc
        | cons x xs => exact ⟨x, xs, rfl⟩
      have hlast : (x :: xs).getLast? = some ((x :: xs).getLast (by simp)) := by
        rw [List.getLast?_eq_getLast]
      simp [mergeLine, hlast]
    · cases hm : mergeLine acc (stripMarker raw) with
      | none => rfl
      | some acc2 => exact ih acc2 (mergeLine_ne_nil hm) ⟨l, hmem, hstrip⟩

/-- C9, amended: `episode_html` fails on every cue sequence containing
a line, OTHER THAN THE FIRST, whose stripped text is empty - the merge
loop's buffer is then non-empty and `line[0].islower()` raises
`IndexError`.  (An empty stripped FIRST line is not indexed, because
`lst_line and line[0].islower()` short-circuits on the empty buffer;
see the counterexample for a sequence where it is later merged away and
the call succeeds.) -/
theorem claimC9_amended : ∀ (l0 : List Char) (rest : List (List Char)) (l : List Char),
    l ∈ rest → stripMarker l = [] → episodeHtml (l0 :: rest) = none := by
  intro l0 rest l hmem hstrip
  unfold episodeHtml
  have h0 : mergeLine [] (stripMarker l0) = some [stripMarker l0] := rfl
  simp only [mergeLoop, h0]
  rw [mergeLoop_empty_line rest [stripMarker l0] (by simp) ⟨l, hmem, hstrip⟩]

/-- Witness for the amended C9: a second line with empty stripped text
makes `episode_html` raise. -/
theorem claimC9_witness : episodeHtml ["Hi.".toList, ([] : List Char)] = none :=
  claimC9_amended ("Hi.".toList) [([] : List Char)] ([] : List Char) (by decide) rfl

/-- C9, counterexample to the claim as stated: the cue sequence
`["", "world"]` contains a line whose stripped text is empty, yet
`episode_html` does NOT fail on it: the empty first line is appended
without indexing (`lst_line` is empty, so the conjunction
short-circuits), the lowercase second line is merged into it as
`" world"`, and the call returns a paragraph. -/
theorem claimC9_counterexample :
    stripMarker ([] : List Char) = [] ∧
    episodeHtml [([] : List Char), "world".toList] = some ("<p> world</p>".toList) := by
  exact ⟨rfl, by decide⟩

/-- A test entry whose subtitle file yields zero cue lines. -/
def emptyCueEntry : EpisodeEntry :=
  { title := "T".toList, description := "D".toList, subtitle := some "e.srt".toList,
    root := "d".toList, cueLines := [] }

/-- The chapter `generate` actually builds for `emptyCueEntry`: its
body beyond the intro block is empty. -/
def emptyCueChapter : Chapter :=
  { se := "S01E01".toList, heading := "S01E01 - T".toList,
    content := "<h2>S01E01 - T</h2><p><i>D</i></p>".toList }

/-- C3 (code_bug evidence): for a store entry whose subtitle file
yields zero cue lines, `episode_html` returns the empty fragment, but
`generate` does NOT abort: the emptiness check `if not content` is
evaluated on `episode_intro + content`, which always contains the
non-empty intro block, so the `raise Exception('Empty content', se)` is
unreachable and a chapter whose body is only the intro is added and the
book is written. -/
theorem claimC3_code_keeps_empty_chapter :
    episodeHtml ([] : List (List Char)) = some [] ∧
    generateBook [("S01E01".toList, emptyCueEntry)]
      = .ok ([emptyCueChapter], [(1, [emptyCueChapter])]) := by
  exact ⟨rfl, rfl⟩

/-! ## The TOC scan equals the contiguous-run decomposition -/

theorem runsSpec_cons {α : Type} (s : Nat) (a : α) (rest : List (Nat × α)) :
    runsSpec ((s, a) :: rest) = consRun s [a] (runsSpec rest) := by
  simp only [runsSpec]
  cases runsSpec rest with
  | nil => rfl
  | cons p rs =>
    obtain ⟨s2, r⟩ := p
    by_cases h : s = s2 <;> simp [consRun, h]

theorem consRun_head {α : Type} (s : Nat) (run : List α) (X : List (Nat × List α)) :
    ∃ r rs, consRun s run X = (s, r) :: rs := by
  cases X with
  | nil => exact ⟨run, [], rfl⟩
  | cons p rs =>
    obtain ⟨s2, r⟩ := p
    by_cases h : s = s2
    · exact ⟨run ++ r, rs, by simp [consRun, h]⟩
    · exact ⟨run, (s2, r) :: rs, by simp [consRun, h]⟩

theorem consRun_snoc {α : Type} (prev : Nat) (cur : List α) (a : α)
    (X : List (Nat × List α)) :
    consRun prev (cur ++ [a]) X = consRun prev cur (consRun prev [a] X) := by
  cases X with
  | nil => simp [consRun]
  | cons p rs =>
    obtain ⟨s2, r⟩ := p
    by_cases h : prev = s2 <;> simp [consRun, h]

theorem tocGo_consRun {α : Type} : ∀ (l : List (Nat × α)) (prev : Nat) (cur : List α)
    (acc : List (Nat × List α)), cur ≠ [] →
    tocGo l prev cur acc = acc ++ consRun prev cur (runsSpec l) := by
  intro l
  induction l with
  | nil =>
    intro prev cur acc _
    simp [tocGo, runsSpec, consRun]
  | cons p rest ih =>
    obtain ⟨s, a⟩ := p
    intro prev cur acc hcur
    have hce : cur.isEmpty = false := by
      cases cur with
      | nil => exact absurd rfl hcur
      | cons _ _ => rfl
    simp only [tocGo]
    by_cases hs : s ≠ prev
    · rw [if_pos hs]
      simp only [hce, Bool.false_eq_true, if_false]
      rw [ih s [a] (acc ++ [(prev, cur)]) (by simp), runsSpec_cons]
      obtain ⟨r, rs, hr⟩ := consRun_head s [a] (runsSpec rest)
      rw [hr]
      rw [show consRun prev cur ((s, r) :: rs) = (prev, cur) :: (s, r) :: rs by
        simp [consRun, if_neg (Ne.symm hs)]]
      simp
    · rw [if_neg hs]
      push_neg at hs
      subst hs
      rw [ih s (cur ++ [a]) acc (by simp), runsSpec_cons, consRun_snoc]

/-- The TOC fold from its initial state (`s_prev_season = 0`, empty
current run) computes exactly the contiguous-run decomposition, for any
non-empty chapter sequence. -/
theorem tocGo_runs {α : Type} : ∀ (l : List (Nat × α)), l ≠ [] →
    tocGo l 0 [] [] = runsSpec l := by
  intro l hl
  cases l with
  | nil => exact absurd rfl hl
  | cons p rest =>
    obtain ⟨s, a⟩ := p
    simp only [tocGo]
    by_cases hs : s ≠ 0
    · rw [if_pos hs]
      simp only [List.isEmpty_nil, if_true]
      rw [tocGo_consRun rest s [a] [] (by simp), runsSpec_cons]
      simp
    · rw [if_neg hs]
      push_neg at hs
      subst hs
      rw [show ([] : List α) ++ [a] = [a] from rfl]
      rw [tocGo_consRun rest 0 [a] [] (by simp), runsSpec_cons]
      simp

theorem tocGo_join {α : Type} : ∀ (l : List (Nat × α)) (prev : Nat) (cur : List α)
    (acc : List (Nat × List α)),
    ((tocGo l prev cur acc).map Prod.snd).flatten
      = (acc.map Prod.snd).flatten ++ cur ++ l.map Prod.snd := by
  intro l
  induction l with
  | nil =>
    intro prev cur acc
    simp [tocGo]
  | cons p rest ih =>
    obtain ⟨s, a⟩ := p
    intro prev cur acc
    simp only [tocGo]
    by_cases hs : s ≠ prev
    · rw [if_pos hs]
      rw [ih]
      cases cur with
      | nil => simp
      | cons x xs => simp
    · rw [if_neg hs]
      rw [ih]
      simp

/-! ## The assembly loop: relating `genLoop` to the TOC fold -/

theorem genLoop_skip : ∀ (entries : List (List Char × EpisodeEntry)) (chAcc : List Chapter)
    (prevSeason : Nat) (curRun : List Chapter) (tocAcc : List (Nat × List Chapter)),
    (∀ p ∈ entries, p.2.subtitle = none) →
    genLoop entries chAcc prevSeason curRun tocAcc = .ok (chAcc, tocAcc ++ [(prevSeason, curRun)]) := by
  intro entries
  induction entries with
  | nil => intro chAcc prevSeason curRun tocAcc _; rfl
  | cons e rest ih =>
    obtain ⟨se, info⟩ := e
    intro chAcc prevSeason curRun tocAcc h
    have hsub : info.subtitle = none := h (se, info) (List.mem_cons_self _ _)
    simp only [genLoop, hsub]
    exact ih chAcc prevSeason curRun tocAcc (fun p hp => h p (List.mem_cons_of_mem _ hp))

theorem genLoop_spec : ∀ (entries : List (List Char × EpisodeEntry)) (chAcc : List Chapter)
    (prevSeason : Nat) (curRun : List Chapter) (tocAcc : List (Nat × List Chapter))
    (ch : List Chapter) (toc : List (Nat × List Chapter)),
    genLoop entries chAcc prevSeason curRun tocAcc = .ok (ch, toc) →
    ∃ pairs : List (Nat × Chapter),
      ch = chAcc ++ pairs.map Prod.snd ∧
      (∀ p ∈ pairs, parseSeason p.2.se = some p.1) ∧
      pairs.map (fun p => p.2.se)
        = (entries.filter fun e => e.2.subtitle.isSome).map Prod.fst ∧
      toc = tocGo pairs prevSeason curRun tocAcc := by
  intro entries
  induction entries with
  | nil =>
    intro chAcc prevSeason curRun tocAcc ch toc h
    simp only [genLoop, Except.ok.injEq, Prod.mk.injEq] at h
    obtain ⟨h1, h2⟩ := h
    exact ⟨[], by simp [h1.symm], by simp, by simp, by simp [tocGo, h2.symm]⟩
  | cons e rest ih =>
    obtain ⟨se, info⟩ := e
    intro chAcc prevSeason curRun tocAcc ch toc h
    cases hsub : info.subtitle with
    | none =>
      simp only [genLoop, hsub] at h
      obtain ⟨pairs, h1, h2, h3, h4⟩ := ih chAcc prevSeason curRun tocAcc ch toc h
      refine ⟨pairs, h1, h2, ?_, h4⟩
      simp [List.filter_cons, hsub, h3]
    | some sub =>
      simp only [genLoop, hsub] at h
      cases hhtml : episodeHtml info.cueLines with
      | none => rw [hhtml] at h; simp at h
      | some body =>
        rw [hhtml] at h
        simp only at h
        have hne : episodeIntro (se ++ " - ".toList ++ info.title) info.description ++ body
            ≠ [] := by simp [episodeIntro]
        rw [if_neg hne] at h
        cases hps : parseSeason se with
        | none => rw [hps] at h; simp at h
        | some season =>
          rw [hps] at h
          simp only at h
          by_cases hss : season ≠ prevSeason
          · rw [if_pos hss] at h
            obtain ⟨pairs, h1, h2, h3, h4⟩ := ih _ _ _ _ _ _ h
            refine ⟨(season, ⟨se, se ++ " - ".toList ++ info.title,
              episodeIntro (se ++ " - ".toList ++ info.title) info.description ++ body⟩)
              :: pairs, ?_, ?_, ?_, ?_⟩
            · simp only [List.map_cons]
              rw [h1]
              simp
            · intro p hp
              rcases List.mem_cons.mp hp with rfl | hp'
              · exact hps
              · exact h2 p hp'
            · simp only [List.map_cons, List.filter_cons, hsub]
              simp only [Option.isSome_some, decide_True, if_true, List.map_cons]
              rw [h3]
            · rw [h4]
              simp only [tocGo]
              rw [if_pos hss]
          · rw [if_neg hss] at h
            obtain ⟨pairs, h1, h2, h3, h4⟩ := ih _ _ _ _ _ _ h
            refine ⟨(season, ⟨se, se ++ " - ".toList ++ info.title,
              episodeIntro (se ++ " - ".toList ++ info.title) info.description ++ body⟩)
              :: pairs, ?_, ?_, ?_, ?_⟩
            · simp only [List.map_cons]
              rw [h1]
              simp
            · intro p hp
              rcases List.mem_cons.mp hp with rfl | hp'
              · exact hps
              · exact h2 p hp'
            · simp only [List.map_cons, List.filter_cons, hsub]
              simp only [Option.isSome_some, decide_True, if_true, List.map_cons]
              rw [h3]
            · rw [h4]
              simp only [tocGo]
              rw [if_neg hss]

theorem pairs_eta : ∀ (pairs : List (Nat × Chapter)),
    (∀ p ∈ pairs, parseSeason p.2.se = some p.1) →
    (pairs.map Prod.snd).map (fun c => ((parseSeason c.se).getD 0, c)) = pairs := by
  intro pairs
  induction pairs with
  | nil => intro _; rfl
  | cons p ps ih =>
    intro h
    obtain ⟨s, c⟩ := p
    have hh : parseSeason c.se = some s := h (s, c) (List.mem_cons_self _ _)
    simp only [List.map_cons, hh, Option.getD_some]
    rw [ih (fun q hq => h q (List.mem_cons_of_mem _ hq))]

/-! ## Claims C4, C7, C10 about the assembly phase -/

/-- C4, amended: for every NON-EMPTY sequence of assembled chapters,
the TOC contains one section per contiguous run of equal season numbers
in assembly order - a new section starts exactly when the parsed season
number differs from the previous chapter's, and the final in-progress
section is flushed after the scan - so the TOC equals the
contiguous-run decomposition `runsSpec` of the chapters with their
parsed seasons.  (When no chapter is assembled the claim fails: the
unconditional final flush emits one spurious empty section; see the
counterexample.) -/
theorem claimC4_amended : ∀ (entries : List (List Char × EpisodeEntry))
    (ch : List Chapter) (toc : List (Nat × List Chapter)),
    generateBook entries = .ok (ch, toc) → ch ≠ [] →
    toc = runsSpec (ch.map fun c => ((parseSeason c.se).getD 0, c)) := by
  intro entries ch toc h hne
  obtain ⟨pairs, h1, h2, _, h4⟩ := genLoop_spec entries [] 0 [] [] ch toc h
  simp only [List.nil_append] at h1
  subst h1
  have hpne : pairs ≠ [] := by
    intro hcontra
    subst hcontra
    exact hne rfl
  rw [h4, tocGo_runs pairs hpne, pairs_eta pairs h2]

/-- C4, counterexample to the claim as stated: for the EMPTY sequence
of assembled chapters (a store with no eligible entry) the chapter list
has zero contiguous runs, yet the TOC is not empty - the `for ... else`
flush appends one section, `(Season 0, no chapters)` - so the TOC does
not have one section per contiguous run. -/
theorem claimC4_counterexample :
    generateBook ([] : List (List Char × EpisodeEntry)) = .ok ([], [(0, [])]) ∧
    runsSpec (([] : List Chapter).map fun c => ((parseSeason c.se).getD 0, c)) = [] ∧
    ([((0 : Nat), ([] : List Chapter))].length ≠
      (runsSpec (([] : List Chapter).map fun c => ((parseSeason c.se).getD 0, c))).length) := by
  exact ⟨rfl, rfl, by decide⟩

/-- An eligible test entry with one cue line. -/
def runEntry (t : String) : EpisodeEntry :=
  { title := t.toList, description := "D".toList, subtitle := some "f.srt".toList,
    root := "d".toList, cueLines := ["Hi.".toList] }

/-- Five entries whose seasons, in stored order, are `[1,1,2,2,1]`. -/
def runEntries : List (List Char × EpisodeEntry) :=
  [("S01E01".toList, runEntry "A"), ("S01E02".toList, runEntry "B"),
   ("S02E01".toList, runEntry "C"), ("S02E02".toList, runEntry "E"),
   ("S01E03".toList, runEntry "F")]

/-- The chapters `generate` assembles for `runEntries`. -/
def runChapters : List Chapter :=
  match generateBook runEntries with
  | .ok (c, _) => c
  | .error _ => []

/-- The TOC sections `generate` assembles for `runEntries`. -/
def runSections : List (Nat × List Chapter) :=
  match generateBook runEntries with
  | .ok (_, t) => t
  | .error _ => []

/-- Witness for the amended C4 at the claim's `[1,1,2,2,1]` scenario:
three sections for seasons `1`, `2`, `1` with run lengths `2`, `2`,
`1`. -/
theorem claimC4_witness :
    runSections = runsSpec (runChapters.map fun c => ((parseSeason c.se).getD 0, c)) ∧
    runSections.map (fun s => (s.1, s.2.length)) = [(1, 2), (2, 2), (1, 1)] :=
  ⟨claimC4_amended runEntries runChapters runSections rfl (by decide), by decide⟩

/-- C7: whenever the assembly phase succeeds, its chapters are exactly
those of the store entries that have a subtitle path, in stored order
(entries without one are skipped and contribute no chapter; the spine
is the fixed `'nav'` marker followed by exactly this chapter list), and
the TOC's sections partition this same chapter list, so a skipped entry
contributes no TOC member either. -/
theorem claimC7_chapters_have_subtitles : ∀ (entries : List (List Char × EpisodeEntry))
    (ch : List Chapter) (toc : List (Nat × List Chapter)),
    generateBook entries = .ok (ch, toc) →
    ch.map Chapter.se = (entries.filter fun e => e.2.subtitle.isSome).map Prod.fst ∧
    (toc.map Prod.snd).flatten = ch := by
  intro entries ch toc h
  obtain ⟨pairs, h1, _, h3, h4⟩ := genLoop_spec entries [] 0 [] [] ch toc h
  simp only [List.nil_append] at h1
  subst h1
  constructor
  · rw [List.map_map]
    exact h3
  · rw [h4, tocGo_join]
    simp

/-- A test entry with no subtitle path. -/
def noSubtitleEntry : EpisodeEntry :=
  { title := "T".toList, description := "D".toList, subtitle := none,
    root := "d".toList, cueLines := [] }

/-- A mixed store for the C7 witness: one eligible entry, one without a
subtitle path. -/
def mixedEntries : List (List Char × EpisodeEntry) :=
  [("S01E01".toList, runEntry "A"), ("S03E07".toList, noSubtitleEntry)]

/-- The chapters `generate` assembles for `mixedEntries`. -/
def mixedChapters : List Chapter :=
  match generateBook mixedEntries with
  | .ok (c, _) => c
  | .error _ => []

/-- The TOC sections `generate` assembles for `mixedEntries`. -/
def mixedSections : List (Nat × List Chapter) :=
  match generateBook mixedEntries with
  | .ok (_, t) => t
  | .error _ => []

/-- Witness for C7 on a store with one subtitle-less entry. -/
theorem claimC7_witness :
    mixedChapters.map Chapter.se
      = (mixedEntries.filter fun e => e.2.subtitle.isSome).map Prod.fst ∧
    (mixedSections.map Prod.snd).flatten = mixedChapters :=
  claimC7_chapters_have_subtitles mixedEntries mixedChapters mixedSections rfl

/-- C10: for every store whose entries all lack a subtitle path
(including the empty store) the assembly loop emits no chapter but
still one TOC section - the `for ... else` flush runs unconditionally
after the scan with the initial state `s_prev_season = 0`,
`s_lst_episode = []` - labelled `Season 0` and holding zero
chapters. -/
theorem claimC10_empty_store_toc : ∀ (entries : List (List Char × EpisodeEntry)),
    (∀ p ∈ entries, p.2.subtitle = none) →
    generateBook entries = .ok ([], [(0, [])]) ∧ sectionTitle 0 = "Season 0".toList := by
  intro entries h
  exact ⟨genLoop_skip entries [] 0 [] [] h, rfl⟩

/-- Witness for C10 at the empty store and at a one-entry store without
a subtitle path. -/
theorem claimC10_witness :
    (generateBook ([] : List (List Char × EpisodeEntry)) = .ok ([], [(0, [])]) ∧
      sectionTitle 0 = "Season 0".toList) ∧
    (generateBook [("S01E01".toList, noSubtitleEntry)] = .ok ([], [(0, [])]) ∧
      sectionTitle 0 = "Season 0".toList) :=
  ⟨claimC10_empty_store_toc [] (by simp),
   claimC10_empty_store_toc [("S01E01".toList, noSubtitleEntry)] (by decide)⟩

/-! ## Claim C8 about the prepare walk -/

theorem lookupSE_setEntry {β : Type} : ∀ (l : List (List Char × β)) (k : List Char) (v : β)
    (key : List Char), lookupSE l key = none → lookupSE (setEntry k v l) key = none := by
  intro l k v key
  induction l with
  | nil => intro _; rfl
  | cons p rest ih =>
    obtain ⟨k1, v1⟩ := p
    intro h
    simp only [lookupSE] at h
    split_ifs at h
    rename_i hk1
    by_cases hk : k1 = k
    · subst hk
      simp only [setEntry, List.map_cons, if_pos rfl]
      simp only [lookupSE, if_neg hk1]
      exact ih h
    · simp only [setEntry, List.map_cons, if_neg hk]
      simp only [lookupSE, if_neg hk1]
      exact ih h

/-- C8: during the prepare walk, if the matcher returns an EpisodeId
for some walked file and the provider mapping has no entry for that id,
the walk aborts with an error (`data_tv.get(se)` is `None` and
`info.update` raises `AttributeError`; there is no defensive default
and no silent skip), so `json.dump` - which only runs after the walk -
never writes the info file for that invocation. -/
theorem claimC8_missing_provider_aborts : ∀ (lst_pattern : List Pattern)
    (lst_suffix : List (List Char)) (files : List (List Char × List Char))
    (dataTv : List (List Char × SeriesEntry)) (root fname se : List Char),
    (root, fname) ∈ files →
    match_episode fname lst_pattern lst_suffix = .ok se →
    lookupSE dataTv se = none →
    isError (prepareWalk lst_pattern lst_suffix dataTv files) = true := by
  intro P S files
  induction files with
  | nil =>
    intro dataTv root fname se hmem _ _
    simp at hmem
  | cons f rest ih =>
    obtain ⟨r0, f0⟩ := f
    intro dataTv root fname se hmem hmatch hlook
    simp only [prepareWalk]
    cases hm : match_episode f0 P S with
    | crash => simp [isError]
    | noMatch =>
      rcases List.mem_cons.mp hmem with heq | hmem'
      · injection heq with h1 h2
        subst h1
        subst h2
        rw [hmatch] at hm
        exact MatchResult.noConfusion hm
      · exact ih dataTv root fname se hmem' hmatch hlook
    | ok se2 =>
      cases hl : lookupSE dataTv se2 with
      | none => simp [isError, hl]
      | some info =>
        simp only [hl]
        rcases List.mem_cons.mp hmem with heq | hmem'
        · injection heq with h1 h2
          subst h1
          subst h2
          rw [hmatch] at hm
          injection hm with h3
          subst h3
          rw [hlook] at hl
          exact Option.noConfusion hl
        · exact ih _ root fname se hmem' hmatch (lookupSE_setEntry dataTv se2 _ se hlook)

/-- A pattern deriving `(9, 9)` from any filename, so that the matched
id `S09E09` has no provider entry in the witness store. -/
def walkPattern : Pattern := fun _ => some (9, 9)

/-- The single provider entry of the witness store, keyed `S01E01`. -/
def walkProviderEntry : SeriesEntry :=
  { title := "T".toList, description := "D".toList, subtitle := none, root := none }

/-- Witness for C8: the walk over one file whose match, `S09E09`, has
no provider entry, aborts. -/
theorem claimC8_witness :
    isError (prepareWalk [walkPattern] [".srt".toList]
      [("S01E01".toList, walkProviderEntry)] [("d".toList, "x.srt".toList)]) = true :=
  claimC8_missing_provider_aborts [walkPattern] [".srt".toList]
    [("d".toList, "x.srt".toList)] [("S01E01".toList, walkProviderEntry)]
    ("d".toList) ("x.srt".toList) ("S09E09".toList) (by decide) rfl rfl

end SubtitleEbook
